import Mathlib

/-!
Verification of the OpenI Core reflex engine (crate `core-reflex`):
a shallow embedding of the three reference monitors (`RateLimitReflex`,
`PanicLoopReflex`, `PolicyGuardReflex`) from `monitor.rs` and of the
supervisor event loop from `supervisor.rs`, together with theorems about
their behaviour. Time instants and durations are modelled as natural
numbers (milliseconds); `tokio::time::Instant::duration_since` saturates
at zero, matching truncated subtraction on `Nat`.
-/

namespace OpenI

/-- JSON-like structured value (`serde_json::Value`), with objects as
association lists of key/value pairs. -/
inductive Json where
  | null : Json
  | bool (b : Bool) : Json
  | num (n : Int) : Json
  | str (s : String) : Json
  | arr (xs : List Json) : Json
  | obj (fields : List (String × Json)) : Json

/-- Lookup of a key in a JSON object's field list (first match). -/
def lookupField : List (String × Json) → String → Option Json
  | [], _ => none
  | (k, v) :: rest, key => if k = key then some v else lookupField rest key

/-- `Value::get(seg)` with a string index: a field lookup on objects,
`None` on every other variant. -/
def Json.get : Json → String → Option Json
  | .obj fields, key => lookupField fields key
  | _, _ => none

/-- `Value::as_bool()`: `Some b` on a boolean, `None` otherwise. -/
def Json.asBool? : Json → Option Bool
  | .bool b => some b
  | _ => none

/-- Splitting a character list on a separator character, Rust
`str::split(c)` semantics: the split of the empty string is `[""]`, and
adjacent separators produce empty segments. -/
def splitCharAux (c : Char) (acc : List Char) : List Char → List (List Char)
  | [] => [acc.reverse]
  | x :: xs =>
    if x = c then acc.reverse :: splitCharAux c [] xs
    else splitCharAux c (x :: acc) xs

/-- Segments of a slash-delimited field pointer:
`path.trim_start_matches('/').split('/')` from `monitor.rs`. -/
def pathSegments (path : String) : List String :=
  (splitCharAux '/' [] (path.toList.dropWhile (· = '/'))).map String.mk

/-- The walking loop shared by `PanicLoopReflex::extract_flag`'s
`get_bool` closure and `PolicyGuardReflex::header_bool`: follow each
segment with `Value::get`, returning `false` on a missing segment, and
`as_bool().unwrap_or(false)` on the terminal value. -/
def getBoolGo : Json → List String → Bool
  | cur, [] => (cur.asBool?).getD false
  | cur, seg :: rest =>
    match cur.get seg with
    | some next => getBoolGo next rest
    | none => false

/-- `get_bool(json, path)` from `PanicLoopReflex::extract_flag`. -/
def get_bool (json : Json) (path : String) : Bool :=
  getBoolGo json (pathSegments path)

/-- Pure path walk returning the value a pointer designates, when every
segment is present. Used to state what "the pointer is absent" and "the
pointer is present with value `v`" mean. -/
def walkPath : Json → List String → Option Json
  | cur, [] => some cur
  | cur, seg :: rest =>
    match cur.get seg with
    | some next => walkPath next rest
    | none => none

/-- `ReflexAction` from `lib.rs`: the verdict of one evaluation. -/
inductive ReflexAction where
  | Continue : ReflexAction
  | Alert (reason : String) : ReflexAction
  | Halt (reason : String) : ReflexAction
deriving DecidableEq, Repr

/-- `ReflexError` from `lib.rs`. -/
inductive ReflexError where
  | Subscription (msg : String) : ReflexError
  | Bus (msg : String) : ReflexError
  | Internal (msg : String) : ReflexError
deriving DecidableEq, Repr

/-- `Envelope` from `lib.rs`: the canonical observed event. -/
structure Envelope where
  id : String
  subject : String
  ts_ms : Nat
  headers : Json
  body : Json

/-- `RateLimitReflex` from `monitor.rs`: window and limit configuration
plus the time-ordered deque of observation instants (head = oldest). -/
structure RateLimitReflex where
  window : Nat
  max_events : Nat
  deque : List Nat

/-- `RateLimitReflex::new`. -/
def RateLimitReflex.new (window : Nat) (max_events : Nat) : RateLimitReflex :=
  { window := window, max_events := max_events, deque := [] }

/-- `RateLimitReflex::prune_old`: pop instants from the front while they
are strictly older than the window. -/
def prune_old (window : Nat) (now : Nat) : List Nat → List Nat
  | [] => []
  | ts :: rest => if now - ts > window then prune_old window now rest else ts :: rest

/-- The alert message formatted by `RateLimitReflex::on_event`. -/
def rateMsg (count window limit : Nat) : String :=
  "RateLimitReflex: " ++ toString count ++ " events in " ++ toString window ++
    "ms (limit " ++ toString limit ++ ")"

/-- `RateLimitReflex::on_event`. The envelope is unused by the source
(`_evt`); the instant the source reads from `Instant::now()` is passed
explicitly as `now`. -/
def RateLimitReflex.on_event (st : RateLimitReflex) (_evt : Envelope) (now : Nat) :
    Except ReflexError ReflexAction × RateLimitReflex :=
  let pruned := prune_old st.window now st.deque
  let dq := pruned ++ [now]
  let st' := { st with deque := dq }
  if dq.length > st.max_events then
    (.ok (.Alert (rateMsg dq.length st.window st.max_events)), st')
  else
    (.ok .Continue, st')

/-- `RateLimitReflex::on_tick`: no periodic action. -/
def RateLimitReflex.on_tick (st : RateLimitReflex) (_now : Nat) :
    Except ReflexError ReflexAction × RateLimitReflex :=
  (.ok .Continue, st)

/-- A fixed empty envelope handed to `RateLimitReflex.on_event` when only
the arrival instants matter (the source ignores the envelope). -/
def Envelope.empty : Envelope :=
  { id := "", subject := "", ts_ms := 0, headers := .obj [], body := .obj [] }

/-- Run the rate-limit reflex over a list of arrival instants, collecting
each call's result. -/
def rateRun (st : RateLimitReflex) : List Nat → RateLimitReflex × List (Except ReflexError ReflexAction)
  | [] => (st, [])
  | t :: ts =>
    let (res, st') := st.on_event Envelope.empty t
    let (stf, outs) := rateRun st' ts
    (stf, res :: outs)

/-- `PanicLoopReflex` from `monitor.rs`: field pointer, window, threshold
and the boolean ring buffer (head = oldest). -/
structure PanicLoopReflex where
  field_pointer : String
  window : Nat
  min_repeats : Nat
  ring : List Bool

/-- `PanicLoopReflex::new`. -/
def PanicLoopReflex.new (field_pointer : String) (window min_repeats : Nat) : PanicLoopReflex :=
  { field_pointer := field_pointer, window := window, min_repeats := min_repeats, ring := [] }

/-- `PanicLoopReflex::push`: evict the oldest entry when the ring is at
the window size, append the new flag, and return the count of `true`
entries in the resulting ring. -/
def PanicLoopReflex.push (st : PanicLoopReflex) (is_error : Bool) : PanicLoopReflex × Nat :=
  let popped := if st.ring.length = st.window then st.ring.tail else st.ring
  let ring' := popped ++ [is_error]
  ({ st with ring := ring' }, (ring'.filter id).length)

/-- `PanicLoopReflex::extract_flag`: the boolean extracted from the event,
the OR of walking the pointer into the headers and into the body. -/
def PanicLoopReflex.extract_flag (st : PanicLoopReflex) (evt : Envelope) : Bool :=
  get_bool evt.headers st.field_pointer || get_bool evt.body st.field_pointer

/-- The halt message formatted by `PanicLoopReflex::on_event`. -/
def panicMsg (count window : Nat) (ptr : String) : String :=
  "PanicLoopReflex: " ++ toString count ++ " error flags in last " ++ toString window ++
    " events (pointer: " ++ ptr ++ ")"

/-- `PanicLoopReflex::on_event`. -/
def PanicLoopReflex.on_event (st : PanicLoopReflex) (evt : Envelope) :
    Except ReflexError ReflexAction × PanicLoopReflex :=
  let is_error := st.extract_flag evt
  let (st', cnt) := st.push is_error
  if cnt ≥ st.min_repeats then
    (.ok (.Halt (panicMsg cnt st.window st.field_pointer)), st')
  else
    (.ok .Continue, st')

/-- `PanicLoopReflex`'s periodic hook: the `Reflex` trait default,
`Ok(ReflexAction::Continue)`. -/
def PanicLoopReflex.on_tick (st : PanicLoopReflex) (_now : Nat) :
    Except ReflexError ReflexAction × PanicLoopReflex :=
  (.ok .Continue, st)

/-- Run the panic-loop reflex over a list of events, collecting each
call's result. -/
def panicRun (st : PanicLoopReflex) : List Envelope → PanicLoopReflex × List (Except ReflexError ReflexAction)
  | [] => (st, [])
  | e :: es =>
    let (res, st') := st.on_event e
    let (stf, outs) := panicRun st' es
    (stf, res :: outs)

/-- `PolicyGuardReflex` from `monitor.rs`: the required-true pointer list
(no per-event mutable state). -/
structure PolicyGuardReflex where
  required_true : List String

/-- `PolicyGuardReflex::new`. -/
def PolicyGuardReflex.new (required_true : List String) : PolicyGuardReflex :=
  { required_true := required_true }

/-- `PolicyGuardReflex::header_bool`: the same walk as `get_bool`. -/
def header_bool (ptr : String) (json : Json) : Bool :=
  getBoolGo json (pathSegments ptr)

/-- The halt message formatted by `PolicyGuardReflex::on_event`. -/
def policyMsg (ptr : String) : String :=
  "PolicyGuardReflex: required header " ++ ptr ++ " != true"

/-- The loop body of `PolicyGuardReflex::on_event`, instrumented with the
list of pointers actually evaluated (in evaluation order), to make the
short-circuit observable. -/
def policyGo (headers : Json) : List String → ReflexAction × List String
  | [] => (.Continue, [])
  | ptr :: rest =>
    if header_bool ptr headers then
      let (act, tr) := policyGo headers rest
      (act, ptr :: tr)
    else
      (.Halt (policyMsg ptr), [ptr])

/-- `PolicyGuardReflex::on_event`. -/
def PolicyGuardReflex.on_event (st : PolicyGuardReflex) (evt : Envelope) :
    Except ReflexError ReflexAction × PolicyGuardReflex :=
  (.ok (policyGo evt.headers st.required_true).1, st)

/-- `PolicyGuardReflex`'s periodic hook: the `Reflex` trait default. -/
def PolicyGuardReflex.on_tick (st : PolicyGuardReflex) (_now : Nat) :
    Except ReflexError ReflexAction × PolicyGuardReflex :=
  (.ok .Continue, st)

/-- A reflex as the supervisor sees it (`Box<dyn Reflex>`): a name and an
event hook over a carrier type `R` of reflex states. The hook returns its
verdict-or-error together with the mutated state (the Rust hook takes
`&mut self`, so the state update happens whether or not it errors). -/
structure ReflexModel (R : Type) where
  rname : R → String
  onEvent : R → Envelope → Except ReflexError ReflexAction × R

/-- `control_envelope` from `supervisor.rs`. The ambient values the
source draws from the system clock (`uuid()` and `epoch_ms()`) are passed
in as `uid` and `tms`. -/
def control_envelope (kind reflex reason : String) (evt : Envelope)
    (uid : String) (tms : Nat) : Envelope :=
  { id := "reflex:" ++ kind ++ ":" ++ uid
    subject := "reflex." ++ kind
    ts_ms := tms
    headers := .obj [("reflex", .str reflex), ("reason", .str reason),
                     ("source_event", .str evt.id)]
    body := .obj [] }

/-- One pass of the supervisor's event loop body over the reflex list for
a single received event. Outputs: the mutated reflex list, the publish
calls in issue order (control subject, envelope, and the bus's success
flag — discarded by the source's `let _ =`), the trace of hook
invocations as (reflex position, event id) pairs, and the next ambient
counter. `pubOk` models the bus publish outcome; `uid`/`tms` model the
ambient clock, indexed by the running counter `k`. -/
def processEvent {R : Type} (M : ReflexModel R) (pubOk : String → Envelope → Bool)
    (cs : String) (uid : Nat → String) (tms : Nat → Nat) (evt : Envelope) :
    List R → Nat → Nat → List R × List (String × Envelope × Bool) × List (Nat × String) × Nat
  | [], _, k => ([], [], [], k)
  | r :: rest, i, k =>
    match M.onEvent r evt with
    | (.ok .Continue, r') =>
      let (rs', pubs, tr, k') := processEvent M pubOk cs uid tms evt rest (i + 1) k
      (r' :: rs', pubs, (i, evt.id) :: tr, k')
    | (.ok (.Alert reason), r') =>
      let env := control_envelope "alert" (M.rname r') reason evt (uid k) (tms k)
      let ok := pubOk cs env
      let (rs', pubs, tr, k') := processEvent M pubOk cs uid tms evt rest (i + 1) (k + 1)
      (r' :: rs', (cs, env, ok) :: pubs, (i, evt.id) :: tr, k')
    | (.ok (.Halt reason), r') =>
      let env := control_envelope "halt" (M.rname r') reason evt (uid k) (tms k)
      let ok := pubOk cs env
      let (rs', pubs, tr, k') := processEvent M pubOk cs uid tms evt rest (i + 1) (k + 1)
      (r' :: rs', (cs, env, ok) :: pubs, (i, evt.id) :: tr, k')
    | (.error _, r') =>
      let (rs', pubs, tr, k') := processEvent M pubOk cs uid tms evt rest (i + 1) k
      (r' :: rs', pubs, (i, evt.id) :: tr, k')

/-- The supervisor's event loop (`while let Some(evt) = sub.next()`):
process each delivered event in order over the whole reflex list. -/
def eventLoop {R : Type} (M : ReflexModel R) (pubOk : String → Envelope → Bool)
    (cs : String) (uid : Nat → String) (tms : Nat → Nat) :
    List Envelope → List R → Nat → List R × List (String × Envelope × Bool) × List (Nat × String) × Nat
  | [], rs, k => (rs, [], [], k)
  | e :: es, rs, k =>
    let (rs', pubs, tr, k') := processEvent M pubOk cs uid tms e rs 0 k
    let (rsf, pubs2, tr2, kf) := eventLoop M pubOk cs uid tms es rs' k'
    (rsf, pubs ++ pubs2, tr ++ tr2, kf)

/-- The spawned event-loop task: if the initial subscribe fails the task
returns at once (no hook runs, nothing is published); otherwise it
consumes the subscription's event stream. -/
def runEventLoop {R : Type} (M : ReflexModel R) (pubOk : String → Envelope → Bool)
    (cs : String) (uid : Nat → String) (tms : Nat → Nat)
    (sub : Except String (List Envelope)) (rs : List R) :
    List R × List (String × Envelope × Bool) × List (Nat × String) × Nat :=
  match sub with
  | .error _ => (rs, [], [], 0)
  | .ok es => eventLoop M pubOk cs uid tms es rs 0

/-- The flags of the last `k` entries of a list: the claim-side reading
of "the last `k` observations". -/
def lastWin (k : Nat) (l : List Bool) : List Bool :=
  l.drop (l.length - k)

/-- Count of `true` entries. -/
def countTrue (l : List Bool) : Nat :=
  (l.filter id).length

/-- A demonstration event whose headers carry an explicit boolean flag at
key `e`, used to evaluate theorems at concrete inputs. -/
def evtFlagged : Envelope :=
  { id := "evt-1", subject := "fabric.events.demo", ts_ms := 0,
    headers := .obj [("e", .bool true)], body := .obj [] }

/-- A demonstration event whose headers carry the explicit value `false`
at key `err`, used to evaluate theorems at concrete inputs. -/
def evtFalse : Envelope :=
  { id := "evt-2", subject := "fabric.events.demo", ts_ms := 0,
    headers := .obj [("err", .bool false)], body := .obj [] }

/-- A demonstration reflex model over `Nat` states whose hook always
alerts, used to evaluate the supervisor theorems at concrete inputs. -/
def demoModel : ReflexModel Nat :=
  { rname := fun n => "r" ++ toString n
    onEvent := fun n _ => (.ok (.Alert "boom"), n) }

/-- Characterization of the instrumented policy-guard loop: if some
required pointer evaluates false, the result is `Halt` naming the first
such pointer and the evaluated-pointer trace stops there; otherwise the
result is `Continue` with every pointer evaluated. -/
theorem policyGo_spec (h : Json) : ∀ l : List String,
    (match l.find? (fun p => !header_bool p h) with
     | some p => policyGo h l
         = (.Halt (policyMsg p), l.takeWhile (fun q => header_bool q h) ++ [p])
     | none => policyGo h l = (.Continue, l))
  | [] => by simp [List.find?, policyGo]
  | p :: rest => by
    by_cases hp : header_bool p h
    · have ih := policyGo_spec h rest
      simp only [List.find?, hp, Bool.not_true, policyGo, List.takeWhile]
      cases hfind : rest.find? fun q => !header_bool q h with
      | none =>
        rw [hfind] at ih
        simp [ih, hp]
      | some q =>
        rw [hfind] at ih
        simp [ih, hp]
    · simp only [Bool.not_eq_true] at hp
      simp [List.find?, hp, policyGo, List.takeWhile]

/-- C3: for the policy-guard reflex, if some required pointer evaluates
to false in the event's headers, `on_event` returns `Halt` naming the
first such pointer in list order and evaluates no pointer after it (the
evaluation trace is the true pointers before it followed by that pointer);
if every required pointer evaluates to true, `on_event` returns
`Continue`; `on_event` never returns `Alert`. -/
theorem policyGuard_short_circuit (st : PolicyGuardReflex) (evt : Envelope) :
    (match st.required_true.find? (fun p => !header_bool p evt.headers) with
     | some p =>
         (st.on_event evt).1 = .ok (.Halt (policyMsg p)) ∧
         (policyGo evt.headers st.required_true).2
           = st.required_true.takeWhile (fun q => header_bool q evt.headers) ++ [p]
     | none =>
         (st.on_event evt).1 = .ok .Continue ∧
         (policyGo evt.headers st.required_true).2 = st.required_true) ∧
    ∀ r, (st.on_event evt).1 ≠ .ok (.Alert r) := by
  have hs := policyGo_spec evt.headers st.required_true
  cases hfind : st.required_true.find? fun p => !header_bool p evt.headers with
  | none =>
    rw [hfind] at hs
    simp [PolicyGuardReflex.on_event, hs]
  | some p =>
    rw [hfind] at hs
    simp [PolicyGuardReflex.on_event, hs]

/-- C9: none of the three reference monitors can fail — for every state,
event and instant, the event hooks and tick hooks of `RateLimitReflex`,
`PanicLoopReflex` and `PolicyGuardReflex` all return `Ok`. -/
theorem monitors_never_error (rl : RateLimitReflex) (pl : PanicLoopReflex)
    (pg : PolicyGuardReflex) (evt : Envelope) (now : Nat) :
    (∃ a, (rl.on_event evt now).1 = .ok a) ∧ (∃ a, (rl.on_tick now).1 = .ok a) ∧
    (∃ a, (pl.on_event evt).1 = .ok a) ∧ (∃ a, (pl.on_tick now).1 = .ok a) ∧
    (∃ a, (pg.on_event evt).1 = .ok a) ∧ (∃ a, (pg.on_tick now).1 = .ok a) := by
  refine ⟨?_, ⟨_, rfl⟩, ?_, ⟨_, rfl⟩, ⟨_, rfl⟩, ⟨_, rfl⟩⟩
  · simp only [RateLimitReflex.on_event]
    split <;> exact ⟨_, rfl⟩
  · rcases hp : pl.push (pl.extract_flag evt) with ⟨st', cnt⟩
    by_cases h : cnt ≥ pl.min_repeats <;>
      simp [PanicLoopReflex.on_event, hp, h]

/-- One event-loop pass leaves the number of registered reflexes
unchanged (each reflex is replaced by its mutated self). -/
theorem processEvent_length {R : Type} (M : ReflexModel R) (pubOk : String → Envelope → Bool)
    (cs : String) (uid : Nat → String) (tms : Nat → Nat) (evt : Envelope) :
    ∀ (rs : List R) (i k : Nat),
      (processEvent M pubOk cs uid tms evt rs i k).1.length = rs.length
  | [], _, _ => rfl
  | r :: rest, i, k => by
    have ih1 := processEvent_length M pubOk cs uid tms evt rest (i + 1) k
    have ih2 := processEvent_length M pubOk cs uid tms evt rest (i + 1) (k + 1)
    rcases he : M.onEvent r evt with ⟨res, r'⟩
    rcases res with a | a
    · simp [processEvent, he, ih1]
    · rcases a with _ | reason | reason
      · simp [processEvent, he, ih1]
      · simp [processEvent, he, ih2]
      · simp [processEvent, he, ih2]

/-- One event-loop pass invokes every registered reflex's event hook,
in registration order, with that event — whatever the verdicts and
whatever hooks error. -/
theorem processEvent_trace {R : Type} (M : ReflexModel R) (pubOk : String → Envelope → Bool)
    (cs : String) (uid : Nat → String) (tms : Nat → Nat) (evt : Envelope) :
    ∀ (rs : List R) (i k : Nat),
      (processEvent M pubOk cs uid tms evt rs i k).2.2.1
        = (List.range' i rs.length).map (fun j => (j, evt.id))
  | [], _, _ => rfl
  | r :: rest, i, k => by
    have ih1 := processEvent_trace M pubOk cs uid tms evt rest (i + 1) k
    have ih2 := processEvent_trace M pubOk cs uid tms evt rest (i + 1) (k + 1)
    rcases he : M.onEvent r evt with ⟨res, r'⟩
    rcases res with a | a
    · simp [processEvent, he, ih1, List.range']
    · rcases a with _ | reason | reason
      · simp [processEvent, he, ih1, List.range']
      · simp [processEvent, he, ih2, List.range']
      · simp [processEvent, he, ih2, List.range']

/-- C4: supervisor error isolation. Over any run of the event loop, the
trace of hook invocations is exactly every registered reflex (by
position, in registration order) applied to every delivered event (in
arrival order) — so a reflex whose hook errors on an event never prevents
any later-registered reflex from being invoked with that same event, and
never terminates the loop: every reflex receives and evaluates every
subsequent event. -/
theorem supervisor_error_isolation {R : Type} (M : ReflexModel R)
    (pubOk : String → Envelope → Bool) (cs : String) (uid : Nat → String) (tms : Nat → Nat) :
    ∀ (es : List Envelope) (rs : List R) (k : Nat),
      (eventLoop M pubOk cs uid tms es rs k).2.2.1
        = es.flatMap (fun e => (List.range rs.length).map (fun i => (i, e.id)))
  | [], _, _ => rfl
  | e :: es, rs, k => by
    rcases hp : processEvent M pubOk cs uid tms e rs 0 k with ⟨rs', pubs, tr, k'⟩
    have hlen : rs'.length = rs.length := by
      have := processEvent_length M pubOk cs uid tms e rs 0 k
      rw [hp] at this
      exact this
    have htr : tr = (List.range' 0 rs.length).map (fun j => (j, e.id)) := by
      have := processEvent_trace M pubOk cs uid tms e rs 0 k
      rw [hp] at this
      exact this
    have ih := supervisor_error_isolation M pubOk cs uid tms es rs' k'
    simp [eventLoop, hp, htr, ih, hlen, List.range_eq_range']

/-- One event-loop pass is unaffected by publish outcomes: the mutated
reflexes, the attempted publications (subject and envelope), the
invocation trace and the ambient counter are the same under any two bus
publish behaviours — the source discards the publish result. -/
theorem processEvent_pub_indep {R : Type} (M : ReflexModel R)
    (pubOk pubOk' : String → Envelope → Bool) (cs : String) (uid : Nat → String)
    (tms : Nat → Nat) (evt : Envelope) :
    ∀ (rs : List R) (i k : Nat),
      (processEvent M pubOk cs uid tms evt rs i k).1
          = (processEvent M pubOk' cs uid tms evt rs i k).1 ∧
      (processEvent M pubOk cs uid tms evt rs i k).2.1.map (fun p => (p.1, p.2.1))
          = (processEvent M pubOk' cs uid tms evt rs i k).2.1.map (fun p => (p.1, p.2.1)) ∧
      (processEvent M pubOk cs uid tms evt rs i k).2.2
          = (processEvent M pubOk' cs uid tms evt rs i k).2.2
  | [], _, _ => ⟨rfl, rfl, rfl⟩
  | r :: rest, i, k => by
    have ih1 := processEvent_pub_indep M pubOk pubOk' cs uid tms evt rest (i + 1) k
    have ih2 := processEvent_pub_indep M pubOk pubOk' cs uid tms evt rest (i + 1) (k + 1)
    rcases he : M.onEvent r evt with ⟨res, r'⟩
    rcases res with a | a
    · simp [processEvent, he, ih1.1, ih1.2.1, ih1.2.2]
    · rcases a with _ | reason | reason
      · simp [processEvent, he, ih1.1, ih1.2.1, ih1.2.2]
      · simp [processEvent, he, ih2.1, ih2.2.1, ih2.2.2]
      · simp [processEvent, he, ih2.1, ih2.2.1, ih2.2.2]

/-- The whole event loop is unaffected by publish outcomes, in the same
sense as `processEvent_pub_indep`. -/
theorem eventLoop_pub_indep {R : Type} (M : ReflexModel R)
    (pubOk pubOk' : String → Envelope → Bool) (cs : String) (uid : Nat → String)
    (tms : Nat → Nat) :
    ∀ (es : List Envelope) (rs : List R) (k : Nat),
      (eventLoop M pubOk cs uid tms es rs k).1
          = (eventLoop M pubOk' cs uid tms es rs k).1 ∧
      (eventLoop M pubOk cs uid tms es rs k).2.1.map (fun p => (p.1, p.2.1))
          = (eventLoop M pubOk' cs uid tms es rs k).2.1.map (fun p => (p.1, p.2.1)) ∧
      (eventLoop M pubOk cs uid tms es rs k).2.2
          = (eventLoop M pubOk' cs uid tms es rs k).2.2
  | [], _, _ => ⟨rfl, rfl, rfl⟩
  | e :: es, rs, k => by
    rcases hp : processEvent M pubOk cs uid tms e rs 0 k with ⟨rs1, pubs1, tr1, k1⟩
    rcases hp' : processEvent M pubOk' cs uid tms e rs 0 k with ⟨rs2, pubs2, tr2, k2⟩
    have hstep := processEvent_pub_indep M pubOk pubOk' cs uid tms e rs 0 k
    rw [hp, hp'] at hstep
    obtain ⟨h1, h2, h3⟩ := hstep
    simp only [Prod.mk.injEq] at h1 h3
    obtain ⟨htr, hk⟩ := h3
    subst h1
    subst htr
    subst hk
    have ih := eventLoop_pub_indep M pubOk pubOk' cs uid tms es rs1 k1
    simp only at h2
    simp [eventLoop, hp, hp', h2, ih.1, ih.2.1, ih.2.2]

/-- C7: if the initial subscription fails, the event loop terminates at
once — no reflex hook is ever invoked and nothing is published — and this
is the only early exit: with a successful subscription the loop runs the
whole delivered stream, and a failed publish of a control envelope is not
fatal (the verdict's delivery flag is dropped, while the mutated
reflexes, the attempted publications, the invocation trace and the
counter are identical under any two publish behaviours). -/
theorem supervisor_subscribe_fatal {R : Type} (M : ReflexModel R)
    (pubOk pubOk' : String → Envelope → Bool) (cs : String) (uid : Nat → String)
    (tms : Nat → Nat) (rs : List R) (err : String) (es : List Envelope) :
    runEventLoop M pubOk cs uid tms (.error err) rs = (rs, [], [], 0) ∧
    runEventLoop M pubOk cs uid tms (.ok es) rs = eventLoop M pubOk cs uid tms es rs 0 ∧
    (runEventLoop M pubOk cs uid tms (.ok es) rs).1
        = (runEventLoop M pubOk' cs uid tms (.ok es) rs).1 ∧
    (runEventLoop M pubOk cs uid tms (.ok es) rs).2.1.map (fun p => (p.1, p.2.1))
        = (runEventLoop M pubOk' cs uid tms (.ok es) rs).2.1.map (fun p => (p.1, p.2.1)) ∧
    (runEventLoop M pubOk cs uid tms (.ok es) rs).2.2
        = (runEventLoop M pubOk' cs uid tms (.ok es) rs).2.2 := by
  have h := eventLoop_pub_indep M pubOk pubOk' cs uid tms es rs 0
  exact ⟨rfl, rfl, h.1, h.2.1, h.2.2⟩

/-- C8: within one event, reflexes registered `[X, Y, Z]` that all alert
are evaluated in registration order, each hook is invoked (none skipped),
and the three control envelopes are published in the order X, Y, Z: the
published envelopes carry the reflex names in registration order, all on
the `reflex.alert` subject. -/
theorem supervisor_publish_order {R : Type} (M : ReflexModel R)
    (pubOk : String → Envelope → Bool) (cs : String) (uid : Nat → String) (tms : Nat → Nat)
    (evt : Envelope) (x y z : R) (rx ry rz : String) (x' y' z' : R)
    (hx : M.onEvent x evt = (.ok (.Alert rx), x'))
    (hy : M.onEvent y evt = (.ok (.Alert ry), y'))
    (hz : M.onEvent z evt = (.ok (.Alert rz), z')) :
    (processEvent M pubOk cs uid tms evt [x, y, z] 0 0).2.1.map
        (fun p => p.2.1.headers.get "reflex")
      = [some (.str (M.rname x')), some (.str (M.rname y')), some (.str (M.rname z'))] ∧
    (processEvent M pubOk cs uid tms evt [x, y, z] 0 0).2.1.map (fun p => p.2.1.subject)
      = ["reflex.alert", "reflex.alert", "reflex.alert"] ∧
    (processEvent M pubOk cs uid tms evt [x, y, z] 0 0).2.2.1
      = [(0, evt.id), (1, evt.id), (2, evt.id)] := by
  simp [processEvent, hx, hy, hz, control_envelope, Json.get, lookupField]

/-- Witness for C8 at a concrete model: three reflexes (states `1`, `2`,
`3`) that all alert on the flagged demo event publish in registration
order. -/
theorem supervisor_publish_order_witness :
    demoModel.onEvent 1 evtFlagged = (.ok (.Alert "boom"), 1) ∧
    demoModel.onEvent 2 evtFlagged = (.ok (.Alert "boom"), 2) ∧
    demoModel.onEvent 3 evtFlagged = (.ok (.Alert "boom"), 3) ∧
    ((processEvent demoModel (fun _ _ => true) "fabric.control" (fun _ => "u") (fun _ => 0)
        evtFlagged [1, 2, 3] 0 0).2.1.map (fun p => p.2.1.headers.get "reflex")
      = [some (.str "r1"), some (.str "r2"), some (.str "r3")] ∧
    (processEvent demoModel (fun _ _ => true) "fabric.control" (fun _ => "u") (fun _ => 0)
        evtFlagged [1, 2, 3] 0 0).2.1.map (fun p => p.2.1.subject)
      = ["reflex.alert", "reflex.alert", "reflex.alert"] ∧
    (processEvent demoModel (fun _ _ => true) "fabric.control" (fun _ => "u") (fun _ => 0)
        evtFlagged [1, 2, 3] 0 0).2.2.1
      = [(0, evtFlagged.id), (1, evtFlagged.id), (2, evtFlagged.id)]) :=
  ⟨rfl, rfl, rfl,
   supervisor_publish_order demoModel (fun _ _ => true) "fabric.control" (fun _ => "u")
     (fun _ => 0) evtFlagged 1 2 3 "boom" "boom" "boom" 1 2 3 rfl rfl rfl⟩

/-- Pruning removes nothing when every queued instant is within the
window of the current instant. -/
theorem prune_old_of_within (w now : Nat) :
    ∀ dq : List Nat, (∀ x ∈ dq, now - x ≤ w) → prune_old w now dq = dq
  | [], _ => rfl
  | ts :: rest, h => by
    have hts : now - ts ≤ w := h ts (by simp)
    simp [prune_old, Nat.not_lt.mpr hts]

/-- Characterization of a rate-limit run in which all arrivals (and any
queued instants) stay within the window of everything later: nothing is
ever pruned, so the i-th call sees `dq.length + i + 1` queued instants
and alerts exactly when that count exceeds the limit. -/
theorem rateRun_within_spec (W N : Nat) :
    ∀ (ts : List Nat) (dq : List Nat),
      List.Chain' (· ≤ ·) ts →
      (∀ a ∈ ts, ∀ b ∈ ts, b - a ≤ W) →
      (∀ x ∈ dq, ∀ t ∈ ts, t - x ≤ W) →
      (rateRun ⟨W, N, dq⟩ ts).2
        = (List.range ts.length).map
            (fun i => if dq.length + i + 1 > N
                      then .ok (.Alert (rateMsg (dq.length + i + 1) W N))
                      else .ok .Continue)
  | [], _, _, _, _ => rfl
  | t :: ts, dq, hchain, hwin, hdq => by
    have hprune : prune_old W t dq = dq :=
      prune_old_of_within W t dq (fun x hx => hdq x hx t (by simp))
    have hdq' : ∀ x ∈ dq ++ [t], ∀ u ∈ ts, u - x ≤ W := by
      intro x hx u hu
      rcases List.mem_append.mp hx with h | h
      · exact hdq x h u (List.mem_cons_of_mem _ hu)
      · have : x = t := by simpa using h
        subst this
        exact hwin x (by simp) u (List.mem_cons_of_mem _ hu)
    have hwin' : ∀ a ∈ ts, ∀ b ∈ ts, b - a ≤ W := fun a ha b hb =>
      hwin a (List.mem_cons_of_mem _ ha) b (List.mem_cons_of_mem _ hb)
    have ih := rateRun_within_spec W N ts (dq ++ [t]) hchain.tail hwin' hdq'
    simp only [rateRun, RateLimitReflex.on_event, hprune]
    rw [List.length_cons, List.range_succ_eq_map]
    simp only [List.map_cons, List.map_map]
    rw [apply_ite Prod.fst, apply_ite Prod.snd, ite_self]
    congr 1
    · simp [List.length_append]
    · rw [ih]
      apply List.map_congr_left
      intro i _
      have harith : (dq ++ [t]).length + i + 1 = dq.length + (i + 1) + 1 := by
        simp [List.length_append]
        omega
      simp only [Function.comp_apply, Nat.succ_eq_add_one, harith]

/-- C1: for the rate-limit reflex with window `W` and limit `N`, any
nondecreasing arrival sequence staying within `W` of itself yields
`Continue` on every call when it has exactly `N` events, and `Alert` on
the `(N+1)`th call when it has `N+1` events — the comparison is strict,
so exactly `N` events in the window never alerts. -/
theorem rateLimit_threshold (W N : Nat) (ts : List Nat)
    (hchain : List.Chain' (· ≤ ·) ts)
    (hwin : ∀ a ∈ ts, ∀ b ∈ ts, b - a ≤ W) :
    (ts.length = N →
      ∀ o ∈ (rateRun (RateLimitReflex.new W N) ts).2, o = .ok .Continue) ∧
    (ts.length = N + 1 →
      (rateRun (RateLimitReflex.new W N) ts).2.getLast?
        = some (.ok (.Alert (rateMsg (N + 1) W N)))) := by
  have hs := rateRun_within_spec W N ts [] hchain hwin (by simp)
  have hs' : (rateRun (RateLimitReflex.new W N) ts).2
      = (List.range ts.length).map
          (fun i => if i + 1 > N then .ok (.Alert (rateMsg (i + 1) W N))
                    else .ok .Continue) := by
    rw [RateLimitReflex.new, hs]
    apply List.map_congr_left
    intro i _
    simp
  constructor
  · intro hlen o ho
    rw [hs'] at ho
    obtain ⟨i, hi, rfl⟩ := List.mem_map.mp ho
    have : i < N := by
      rw [← hlen]
      exact List.mem_range.mp hi
    simp [Nat.not_lt.mpr this]
  · intro hlen
    rw [hs', hlen, List.range_succ, List.map_append]
    simp

/-- Witness for C1: window 10, limit 2, arrivals `[0, 1, 2]` (three
events within the window) — the hypotheses hold and the third call
alerts. -/
theorem rateLimit_threshold_witness :
    List.Chain' (· ≤ ·) [0, 1, 2] ∧
    (∀ a ∈ [0, 1, 2], ∀ b ∈ [0, 1, 2], b - a ≤ 10) ∧
    (([0, 1, 2] : List Nat).length = 2 + 1 →
      (rateRun (RateLimitReflex.new 10 2) [0, 1, 2]).2.getLast?
        = some (.ok (.Alert (rateMsg (2 + 1) 10 2)))) :=
  ⟨by norm_num [List.chain'_cons], by decide,
   (rateLimit_threshold 10 2 [0, 1, 2] (by norm_num [List.chain'_cons]) (by decide)).2⟩

/-- From a single queued instant, arrivals each more than the window
after their predecessor keep the queue at one element, so with a limit of
at least one every call continues. -/
theorem rateRun_gap (W N : Nat) (hN : 1 ≤ N) :
    ∀ (ts : List Nat) (p : Nat),
      List.Chain' (fun a b => W < b - a) (p :: ts) →
      ∀ o ∈ (rateRun ⟨W, N, [p]⟩ ts).2, o = .ok .Continue
  | [], _, _, _, h => by simp [rateRun] at h
  | t :: ts, p, hchain, o, ho => by
    have hpt : W < t - p := (List.chain'_cons.mp hchain).1
    have hprune : prune_old W t [p] = [] := by
      simp [prune_old, hpt]
    have hone : ¬ ([] ++ [t]).length > N := by
      simp only [List.nil_append, List.length_cons, List.length_nil]
      omega
    have hcont : (RateLimitReflex.on_event ⟨W, N, [p]⟩ Envelope.empty t)
        = (.ok .Continue, ⟨W, N, [t]⟩) := by
      simp [RateLimitReflex.on_event, hprune, hone]
      omega
    simp only [rateRun, hcont, List.mem_cons] at ho
    rcases ho with h | h
    · exact h
    · exact rateRun_gap W N hN ts t (List.chain'_cons.mp hchain).2 o h

/-- C5 (amended): for the rate-limit reflex with window `W` and limit
`N ≥ 1`, a sequence of `N + 1` arrivals each separated from its
predecessor by strictly more than `W` yields `Continue` on every call —
instants older than the window are evicted from the front, so widely
spaced events never accumulate. -/
theorem rateLimit_window_expiry (W N : Nat) (ts : List Nat) (hN : 1 ≤ N)
    (_hlen : ts.length = N + 1)
    (hgap : List.Chain' (fun a b => W < b - a) ts) :
    ∀ o ∈ (rateRun (RateLimitReflex.new W N) ts).2, o = .ok .Continue := by
  intro o ho
  cases ts with
  | nil => simp [rateRun] at ho
  | cons t ts' =>
    have hone : ¬ (prune_old W t [] ++ [t]).length > N := by
      simp only [prune_old, List.nil_append, List.length_cons, List.length_nil]
      omega
    have hcont : (RateLimitReflex.on_event (RateLimitReflex.new W N) Envelope.empty t)
        = (.ok .Continue, ⟨W, N, [t]⟩) := by
      simp [RateLimitReflex.on_event, RateLimitReflex.new, prune_old, hone]
      omega
    simp only [rateRun, hcont, List.mem_cons] at ho
    rcases ho with h | h
    · exact h
    · exact rateRun_gap W N hN ts' t hgap o h

/-- Counterexample to C5 as stated: with limit `N = 0` and window `5`, a
single event (a sequence of `N + 1` arrivals, vacuously all separated by
more than the window) makes the very first call alert, not continue. -/
theorem rateLimit_window_expiry_cex :
    List.Chain' (fun a b => (5 : Nat) < b - a) [0] ∧
    ([0] : List Nat).length = 0 + 1 ∧
    (rateRun (RateLimitReflex.new 5 0) [0]).2 = [.ok (.Alert (rateMsg 1 5 0))] ∧
    ¬ (∀ o ∈ (rateRun (RateLimitReflex.new 5 0) [0]).2, o = .ok .Continue) := by
  refine ⟨by simp, rfl, rfl, ?_⟩
  intro h
  have hmem : (Except.ok (ReflexAction.Alert (rateMsg 1 5 0)) :
      Except ReflexError ReflexAction) ∈ (rateRun (RateLimitReflex.new 5 0) [0]).2 := by
    rw [show (rateRun (RateLimitReflex.new 5 0) [0]).2
      = [.ok (.Alert (rateMsg 1 5 0))] from rfl]
    simp
  have := h _ hmem
  simp at this

/-- Witness for C5 (amended): window 5, limit 1, arrivals `[0, 6]` with
gap `6 > 5` — every call continues. -/
theorem rateLimit_window_expiry_witness :
    1 ≤ 1 ∧ ([0, 6] : List Nat).length = 1 + 1 ∧
    List.Chain' (fun a b => (5 : Nat) < b - a) [0, 6] ∧
    (∀ o ∈ (rateRun (RateLimitReflex.new 5 1) [0, 6]).2, o = .ok .Continue) :=
  ⟨by decide, by decide, by norm_num [List.chain'_cons],
   rateLimit_window_expiry 5 1 [0, 6] (by decide) (by decide)
     (by norm_num [List.chain'_cons])⟩

/-- Pushing onto a ring that holds the last `window` of the already-seen
flags yields the ring of the last `window` of the extended flag history,
and the returned count is the count of `true` entries in that ring
(window at least 1). -/
theorem push_lastWin (K : Nat) (hK : 1 ≤ K) (pre : List Bool) (f : Bool)
    (st : PanicLoopReflex) (hw : st.window = K) (hr : st.ring = lastWin K pre) :
    (st.push f).1 = { st with ring := lastWin K (pre ++ [f]) } ∧
    (st.push f).2 = countTrue (lastWin K (pre ++ [f])) := by
  have hring : (if st.ring.length = st.window then st.ring.tail else st.ring) ++ [f]
      = lastWin K (pre ++ [f]) := by
    rw [hr, hw]
    by_cases hle : K ≤ pre.length
    · have hlen : (lastWin K pre).length = K := by
        simp [lastWin]
        omega
      have hidx : (pre ++ [f]).length - K = (pre.length - K) + 1 := by
        simp [List.length_append]
        omega
      rw [if_pos hlen]
      simp only [lastWin, List.tail_drop]
      rw [hidx, List.drop_append_of_le_length (by omega)]
    · have hlt : pre.length < K := Nat.lt_of_not_le hle
      have hpre : lastWin K pre = pre := by
        simp [lastWin, Nat.sub_eq_zero_of_le (Nat.le_of_lt hlt)]
      have hlen : ¬ (lastWin K pre).length = K := by
        rw [hpre]
        omega
      have hidx : (pre ++ [f]).length - K = 0 := by
        simp [List.length_append]
        omega
      rw [if_neg hlen, hpre]
      simp only [lastWin, hidx, List.drop_zero]
  refine ⟨?_, ?_⟩
  · have hfst : (st.push f).1
        = { st with ring := (if st.ring.length = st.window then st.ring.tail else st.ring) ++ [f] } := rfl
    rw [hfst, hring]
  · have hsnd : (st.push f).2
        = ((((if st.ring.length = st.window then st.ring.tail else st.ring) ++ [f]).filter id).length) := rfl
    rw [hsnd, hring]
    rfl

/-- One panic-loop event step from the ring of the last `K` flags of a
prior history: the verdict is `Halt` exactly when the count of `true`
flags in the last `K` entries of the extended history reaches the
threshold, and the ring advances by the event's extracted flag. -/
theorem on_event_lastWin (ptr : String) (K M : Nat) (hK : 1 ≤ K) (pre : List Bool) (e : Envelope) :
    PanicLoopReflex.on_event ⟨ptr, K, M, lastWin K pre⟩ e
      = (if M ≤ countTrue (lastWin K (pre ++ [get_bool e.headers ptr || get_bool e.body ptr]))
         then (.ok (.Halt (panicMsg (countTrue (lastWin K (pre ++
                 [get_bool e.headers ptr || get_bool e.body ptr]))) K ptr)),
               (⟨ptr, K, M, lastWin K (pre ++ [get_bool e.headers ptr || get_bool e.body ptr])⟩ :
                 PanicLoopReflex))
         else (.ok .Continue,
               (⟨ptr, K, M, lastWin K (pre ++ [get_bool e.headers ptr || get_bool e.body ptr])⟩ :
                 PanicLoopReflex))) := by
  have hpush := push_lastWin K hK pre (get_bool e.headers ptr || get_bool e.body ptr)
      ⟨ptr, K, M, lastWin K pre⟩ rfl rfl
  have hdef : PanicLoopReflex.on_event ⟨ptr, K, M, lastWin K pre⟩ e
      = (if (PanicLoopReflex.push ⟨ptr, K, M, lastWin K pre⟩
              (get_bool e.headers ptr || get_bool e.body ptr)).2 ≥ M
         then (.ok (.Halt (panicMsg (PanicLoopReflex.push ⟨ptr, K, M, lastWin K pre⟩
                 (get_bool e.headers ptr || get_bool e.body ptr)).2 K ptr)),
               (PanicLoopReflex.push ⟨ptr, K, M, lastWin K pre⟩
                 (get_bool e.headers ptr || get_bool e.body ptr)).1)
         else (.ok .Continue,
               (PanicLoopReflex.push ⟨ptr, K, M, lastWin K pre⟩
                 (get_bool e.headers ptr || get_bool e.body ptr)).1)) := rfl
  rw [hdef, hpush.1, hpush.2]

/-- The i-th verdict of a panic-loop run started on the ring of the last
`K` flags of a prior history `pre`: `Halt` exactly when the count of
`true` flags in the last `K` entries of the extended history reaches the
threshold, else `Continue`. -/
theorem panicRun_getp (ptr : String) (K M : Nat) (hK : 1 ≤ K) :
    ∀ (es : List Envelope) (pre : List Bool) (i : Nat), i < es.length →
      (panicRun ⟨ptr, K, M, lastWin K pre⟩ es).2.get? i
        = some (if M ≤ countTrue (lastWin K (pre ++ (es.take (i + 1)).map
                    (fun e => get_bool e.headers ptr || get_bool e.body ptr)))
                then .ok (.Halt (panicMsg (countTrue (lastWin K (pre ++ (es.take (i + 1)).map
                    (fun e => get_bool e.headers ptr || get_bool e.body ptr)))) K ptr))
                else .ok .Continue)
  | e :: es, pre, i, hi => by
    have hrun : (panicRun ⟨ptr, K, M, lastWin K pre⟩ (e :: es)).2
        = (PanicLoopReflex.on_event ⟨ptr, K, M, lastWin K pre⟩ e).1
            :: (panicRun (PanicLoopReflex.on_event ⟨ptr, K, M, lastWin K pre⟩ e).2 es).2 := rfl
    rw [hrun, on_event_lastWin ptr K M hK pre e,
      apply_ite Prod.fst, apply_ite Prod.snd, ite_self]
    cases i with
    | zero =>
      simp [List.take_succ_cons]
    | succ i =>
      have hi' : i < es.length := by simpa using hi
      have ih := panicRun_getp ptr K M hK es
        (pre ++ [get_bool e.headers ptr || get_bool e.body ptr]) i hi'
      have hget : ∀ (a : Except ReflexError ReflexAction) (l : List (Except ReflexError ReflexAction)),
          (a :: l).get? (i + 1) = l.get? i := fun _ _ => rfl
      rw [hget, ih]
      simp [List.take_succ_cons, List.append_assoc]

/-- C2 (amended to window `K ≥ 1`): for the panic-loop reflex with window
`K` and min-repeats `M`, the i-th call's verdict is `Halt` exactly when
the count of error-flagged events among the last `K` observations (up to
and including the i-th) reaches `M` — the trigger condition is
`count ≥ M` — and `Continue` otherwise; in particular a stream with
exactly `M` error flags in the window halts on the `M`th, and fewer than
`M` yields only `Continue`. -/
theorem panicLoop_threshold (ptr : String) (K M : Nat) (hK : 1 ≤ K)
    (es : List Envelope) (i : Nat) (hi : i < es.length) :
    (panicRun (PanicLoopReflex.new ptr K M) es).2.get? i
      = some (if M ≤ countTrue (lastWin K ((es.take (i + 1)).map
                  ((PanicLoopReflex.new ptr K M).extract_flag)))
              then .ok (.Halt (panicMsg (countTrue (lastWin K ((es.take (i + 1)).map
                  ((PanicLoopReflex.new ptr K M).extract_flag)))) K ptr))
              else .ok .Continue) := by
  have h := panicRun_getp ptr K M hK es [] i hi
  have hnil : lastWin K ([] : List Bool) = [] := by
    simp [lastWin]
  have hnew : (PanicLoopReflex.new ptr K M) = ⟨ptr, K, M, lastWin K []⟩ := by
    rw [hnil]
    rfl
  rw [hnew]
  rw [h]
  rfl

/-- Witness for C2: pointer `/e`, window 2, threshold 1, one event whose
headers set `e` to `true` — the first call halts. -/
theorem panicLoop_threshold_witness :
    1 ≤ 2 ∧ 0 < ([evtFlagged] : List Envelope).length ∧
    (panicRun (PanicLoopReflex.new "/e" 2 1) [evtFlagged]).2.get? 0
      = some (if 1 ≤ countTrue (lastWin 2 (([evtFlagged].take (0 + 1)).map
                  ((PanicLoopReflex.new "/e" 2 1).extract_flag)))
              then .ok (.Halt (panicMsg (countTrue (lastWin 2 (([evtFlagged].take (0 + 1)).map
                  ((PanicLoopReflex.new "/e" 2 1).extract_flag)))) 2 "/e"))
              else .ok .Continue) :=
  ⟨by decide, by decide,
   panicLoop_threshold "/e" 2 1 (by decide) [evtFlagged] 0 (by decide)⟩

/-- Counterexample to C2 as stated: with window `K = 0` the ring is never
evicted, so the count is over all observations ever, not the last `K`.
With `K = 0`, `M = 1` and one error-flagged event, the last `0`
observations contain `0 < 1` error flags — the claim then requires
`Continue` — yet the call returns `Halt`. -/
theorem panicLoop_threshold_cex :
    countTrue (lastWin 0 ([evtFlagged].map ((PanicLoopReflex.new "/e" 0 1).extract_flag))) < 1 ∧
    (panicRun (PanicLoopReflex.new "/e" 0 1) [evtFlagged]).2
      = [.ok (.Halt (panicMsg 1 0 "/e"))] ∧
    ¬ (∀ o ∈ (panicRun (PanicLoopReflex.new "/e" 0 1) [evtFlagged]).2, o = .ok .Continue) := by
  refine ⟨by decide, rfl, ?_⟩
  intro h
  have hmem : (Except.ok (ReflexAction.Halt (panicMsg 1 0 "/e")) :
      Except ReflexError ReflexAction) ∈ (panicRun (PanicLoopReflex.new "/e" 0 1) [evtFlagged]).2 := by
    rw [show (panicRun (PanicLoopReflex.new "/e" 0 1) [evtFlagged]).2
      = [.ok (.Halt (panicMsg 1 0 "/e"))] from rfl]
    simp
  have := h _ hmem
  simp at this

/-- The boolean walk agrees with the pure path walk: `false` when the
path is missing, otherwise the terminal's boolean reading. -/
theorem getBoolGo_walkPath : ∀ (segs : List String) (j : Json),
    getBoolGo j segs
      = (match walkPath j segs with
         | some v => (v.asBool?).getD false
         | none => false)
  | [], _ => rfl
  | seg :: rest, j => by
    cases hg : j.get seg with
    | none => simp [getBoolGo, walkPath, hg]
    | some next => simp [getBoolGo, walkPath, hg, getBoolGo_walkPath rest next]

/-- C6: the panic-loop flag extraction is the OR of walking the pointer
into headers and into body, with a missing path or non-boolean terminal
read as `false`; consequently an event where the pointer is absent from
both headers and body extracts `false` and produces the same flag — and
the same `on_event` outcome from equal reflex state — as an event where
the pointer is present with explicit value `false`. -/
theorem panicLoop_missing_eq_false (st : PanicLoopReflex) (e1 e2 : Envelope)
    (h1 : walkPath e1.headers (pathSegments st.field_pointer) = none)
    (h2 : walkPath e1.body (pathSegments st.field_pointer) = none)
    (h3 : walkPath e2.headers (pathSegments st.field_pointer) = some (.bool false) ∨
          walkPath e2.headers (pathSegments st.field_pointer) = none)
    (h4 : walkPath e2.body (pathSegments st.field_pointer) = some (.bool false) ∨
          walkPath e2.body (pathSegments st.field_pointer) = none) :
    (∀ e : Envelope, st.extract_flag e
        = (get_bool e.headers st.field_pointer || get_bool e.body st.field_pointer)) ∧
    st.extract_flag e1 = false ∧
    st.extract_flag e2 = st.extract_flag e1 ∧
    st.on_event e1 = st.on_event e2 := by
  have g1 : get_bool e1.headers st.field_pointer = false := by
    rw [get_bool, getBoolGo_walkPath, h1]
  have g2 : get_bool e1.body st.field_pointer = false := by
    rw [get_bool, getBoolGo_walkPath, h2]
  have g3 : get_bool e2.headers st.field_pointer = false := by
    rcases h3 with h | h
    · rw [get_bool, getBoolGo_walkPath, h]
      rfl
    · rw [get_bool, getBoolGo_walkPath, h]
  have g4 : get_bool e2.body st.field_pointer = false := by
    rcases h4 with h | h
    · rw [get_bool, getBoolGo_walkPath, h]
      rfl
    · rw [get_bool, getBoolGo_walkPath, h]
  have hf1 : st.extract_flag e1 = false := by
    simp [PanicLoopReflex.extract_flag, g1, g2]
  have hf2 : st.extract_flag e2 = false := by
    simp [PanicLoopReflex.extract_flag, g3, g4]
  refine ⟨fun _ => rfl, hf1, by rw [hf1, hf2], ?_⟩
  simp only [PanicLoopReflex.on_event, hf1, hf2]

/-- Witness for C6 at pointer `/err`: an event with empty headers and
body versus an event whose headers set `err` to the explicit value
`false` — same flag, same verdict. -/
theorem panicLoop_missing_eq_false_witness :
    walkPath Envelope.empty.headers (pathSegments (PanicLoopReflex.new "/err" 3 2).field_pointer)
        = none ∧
    walkPath Envelope.empty.body (pathSegments (PanicLoopReflex.new "/err" 3 2).field_pointer)
        = none ∧
    walkPath evtFalse.headers (pathSegments (PanicLoopReflex.new "/err" 3 2).field_pointer)
        = some (.bool false) ∧
    walkPath evtFalse.body (pathSegments (PanicLoopReflex.new "/err" 3 2).field_pointer)
        = none ∧
    ((PanicLoopReflex.new "/err" 3 2).extract_flag Envelope.empty = false ∧
     (PanicLoopReflex.new "/err" 3 2).extract_flag evtFalse
        = (PanicLoopReflex.new "/err" 3 2).extract_flag Envelope.empty ∧
     (PanicLoopReflex.new "/err" 3 2).on_event Envelope.empty
        = (PanicLoopReflex.new "/err" 3 2).on_event evtFalse) :=
  ⟨rfl, rfl, rfl, rfl,
   (panicLoop_missing_eq_false (PanicLoopReflex.new "/err" 3 2) Envelope.empty evtFalse
      rfl rfl (Or.inl rfl) (Or.inr rfl)).2⟩

/-- A push never grows the ring beyond the window (window at least 1). -/
theorem push_length_le (st : PanicLoopReflex) (f : Bool) (K : Nat) (hK : 1 ≤ K)
    (hw : st.window = K) (hlen : st.ring.length ≤ K) :
    (st.push f).1.ring.length ≤ K := by
  have hdef : (st.push f).1.ring
      = (if st.ring.length = st.window then st.ring.tail else st.ring) ++ [f] := rfl
  rw [hdef]
  by_cases hc : st.ring.length = st.window
  · rw [if_pos hc]
    simp [List.length_tail]
    omega
  · rw [if_neg hc]
    simp
    omega

/-- A push preserves the configured window. -/
theorem push_window (st : PanicLoopReflex) (f : Bool) : (st.push f).1.window = st.window := rfl

/-- The ring-length invariant is preserved across a whole panic-loop run. -/
theorem panicRun_ring_le (K : Nat) (hK : 1 ≤ K) :
    ∀ (es : List Envelope) (st : PanicLoopReflex), st.window = K → st.ring.length ≤ K →
      ((panicRun st es).1).ring.length ≤ K
  | [], _, _, hlen => hlen
  | e :: es, st, hw, hlen => by
    have hrun : (panicRun st (e :: es)).1 = (panicRun (st.on_event e).2 es).1 := rfl
    have h2 : (st.on_event e).2 = (st.push (st.extract_flag e)).1 := by
      have hdef : st.on_event e
          = (if (st.push (st.extract_flag e)).2 ≥ st.min_repeats
             then (.ok (.Halt (panicMsg (st.push (st.extract_flag e)).2 st.window st.field_pointer)),
                   (st.push (st.extract_flag e)).1)
             else (.ok .Continue, (st.push (st.extract_flag e)).1)) := rfl
      rw [hdef, apply_ite Prod.snd, ite_self]
    rw [hrun, h2]
    exact panicRun_ring_le K hK es _ (by rw [push_window, hw])
      (push_length_le st _ K hK hw hlen)

/-- C10: for every panic-loop reflex with window `K ≥ 1`, starting from
the empty ring, the ring never grows beyond the window over any event
stream — the oldest entry is evicted exactly when the ring is full. -/
theorem panicLoop_ring_bound (ptr : String) (K M : Nat) (hK : 1 ≤ K) (es : List Envelope) :
    ((panicRun (PanicLoopReflex.new ptr K M) es).1).ring.length ≤ K :=
  panicRun_ring_le K hK es (PanicLoopReflex.new ptr K M) rfl (by simp [PanicLoopReflex.new])

/-- Witness for C10: window 1, threshold 1, one flagged event — the ring
length stays at most 1. -/
theorem panicLoop_ring_bound_witness :
    1 ≤ 1 ∧ ((panicRun (PanicLoopReflex.new "/e" 1 1) [evtFlagged]).1).ring.length ≤ 1 :=
  ⟨by decide, panicLoop_ring_bound "/e" 1 1 (by decide) [evtFlagged]⟩

end OpenI
